import Mathlib

/-!
Verification of the NBA_HOF_1949_2024 data pipeline.

This file gives a shallow embedding of the core transformations of the
repository and proves properties about them:

* `Code/combine_custom_season.py` — award-text classification
  (`process_awards`, `process_playoffs_awards`);
* `Code/modify_single_season.py` — multi-team season consolidation
  (`process_nba_csv`, groupby/idxmax part);
* `Code/consolidate_impute_HOF_career.py` and
  `Code/consolidate_impute_NBA_careerpy.py` — era-bucketed imputation
  (`impute_missing_values`) and career aggregation
  (`calculate_career_stats`, `safe_weighted_average`).

Conventions of the embedding:
* a pandas `NaN` cell is `Option.none`; a present value is `some q`;
* floating point numbers are idealized as rationals `ℚ`;
* the sklearn `KNNImputer.fit_transform(...)[:, -1]` call is an external
  library call and is modeled as an oracle parameter
  `knn : ℕ → List (List (Option ℚ)) → List ℚ` receiving the neighbor
  count `n_neighbors` and the selected feature+target column slice, and
  returning the column that the code writes back;
* Python exceptions are modeled with `Except String`.
-/

/-! ## Generic utilities -/

/-- First-appearance deduplication, matching the order semantics of
`pandas.Series.unique()` (keeps the first occurrence of each value). -/
def firstAppearanceAux {α : Type} [DecidableEq α] (seen : List α) : List α → List α
  | [] => []
  | a :: as =>
    if a ∈ seen then firstAppearanceAux seen as
    else a :: firstAppearanceAux (a :: seen) as

def firstAppearance {α : Type} [DecidableEq α] (l : List α) : List α :=
  firstAppearanceAux [] l

/-- Concatenation of a list of strings (display-string assembly). -/
def joinStr : List String → String
  | [] => ""
  | s :: rest => s ++ joinStr rest

/-- Round-half-to-even to an integer, the rounding mode used by
`numpy.round` (idealized over `ℚ`). -/
def roundHalfEven (q : ℚ) : ℤ :=
  let f : ℤ := ⌊q⌋
  let r : ℚ := q - f
  if r < 1/2 then f
  else if 1/2 < r then f + 1
  else if f % 2 = 0 then f else f + 1

/-- `DataFrame.round(3)`: round to 3 decimal places. -/
def round3 (q : ℚ) : ℚ := (roundHalfEven (q * 1000) : ℚ) / 1000

theorem firstAppearanceAux_mem {α : Type} [DecidableEq α] (l : List α) :
    ∀ (seen : List α) (x : α),
      x ∈ firstAppearanceAux seen l ↔ x ∈ l ∧ x ∉ seen := by
  induction l with
  | nil => intro seen x; simp [firstAppearanceAux]
  | cons a as ih =>
    intro seen x
    by_cases ha : a ∈ seen <;> by_cases hxa : x = a <;>
      simp [firstAppearanceAux, ha, ih, hxa, List.mem_cons] <;> tauto

theorem firstAppearance_mem {α : Type} [DecidableEq α] (l : List α) (x : α) :
    x ∈ firstAppearance l ↔ x ∈ l := by
  simp [firstAppearance, firstAppearanceAux_mem]

theorem firstAppearanceAux_nodup {α : Type} [DecidableEq α] (l : List α) :
    ∀ seen : List α, (firstAppearanceAux seen l).Nodup := by
  induction l with
  | nil => intro seen; simp [firstAppearanceAux]
  | cons a as ih =>
    intro seen
    by_cases ha : a ∈ seen
    · simpa [firstAppearanceAux, if_pos ha] using ih seen
    · simp only [firstAppearanceAux, if_neg ha, List.nodup_cons]
      refine ⟨fun hc => ?_, ih (a :: seen)⟩
      rcases (firstAppearanceAux_mem as (a :: seen) a).1 hc with ⟨_, hns⟩
      exact hns (List.mem_cons_self a seen)

theorem firstAppearance_nodup {α : Type} [DecidableEq α] (l : List α) :
    (firstAppearance l).Nodup :=
  firstAppearanceAux_nodup l []

/-! ## Award Classifier (`Code/combine_custom_season.py`) -/

/-- Python `str.strip()` (and pandas `.str.strip()`): drop whitespace
from both ends, over the character list. -/
def pyStrip (l : List Char) : List Char :=
  ((l.dropWhile Char.isWhitespace).reverse.dropWhile Char.isWhitespace).reverse

/-- `str.strip()` on a string. -/
def strTrim (s : String) : String := String.mk (pyStrip s.data)

/-- Python `str.startswith(pre)`. -/
def strStartsWith (s pre : String) : Bool := pre.data.isPrefixOf s.data

/-- Python `str.split(',')` on the character list: splitting on every
comma, keeping empty segments (`"".split(',') == ['']`,
`",,".split(',') == ['', '', '']`). -/
def splitOnComma : List Char → List (List Char)
  | [] => [[]]
  | c :: cs =>
    if c = ',' then [] :: splitOnComma cs
    else
      match splitOnComma cs with
      | [] => [[c]]
      | w :: ws => (c :: w) :: ws

/-- Tokenization of a raw awards cell (`process_awards` lines 118–119):
split on commas, strip whitespace, drop empty tokens. -/
def tokensOf (s : String) : List String :=
  ((splitOnComma s.data).map (fun l => strTrim (String.mk l))).filter (fun t => t ≠ "")

/-- Wrap one display token in slashes. -/
def wrapTok (s : String) : String := "/" ++ s ++ "/"

/-- `fixed_awards` of `process_awards`: unranked award codes. -/
def fixed_awards : List String := ["AS", "DEF1", "DEF2", "NBA1", "NBA2", "NBA3"]

/-- `award_prefixes` of `process_awards`: rank-qualified award codes,
prefix paired with the base flag name, in the source dictionary order. -/
def award_prefixes : List (String × String) :=
  [("MVP-", "MVP"), ("ROY-", "ROY"), ("DPOY-", "DPOY"),
   ("6MOY-", "6MOY"), ("CPOY-", "CPOY"), ("MIP-", "MIP")]

/-- Per-token classification of `process_awards` (lines 125–151):
first the exact-match loop over `fixed_awards`, then the
`startswith` loop over `award_prefixes` (flag only when the token equals
`prefix + "1"`), else pass-through.  Returns the appended display text
and the flag set by this token, if any. -/
def processPart (part : String) : String × Option String :=
  if part ∈ fixed_awards then (wrapTok part, some part)
  else
    match award_prefixes.find? (fun pr => strStartsWith part pr.1) with
    | some pr => (wrapTok part, if part = pr.1 ++ "1" then some pr.2 else none)
    | none => (wrapTok part, none)

/-- Insertion into `awards_to_set` (a Python `set`, modeled as a list
without duplicates; only membership is ever consumed). -/
def addFlag (fls : List String) : Option String → List String
  | none => fls
  | some f => if f ∈ fls then fls else fls ++ [f]

/-- One iteration of the token loop of `process_awards`: extend the
display text and the flag set. -/
def awardStep (acc : String × List String) (part : String) : String × List String :=
  (acc.1 ++ (processPart part).1, addFlag acc.2 (processPart part).2)

/-- The token loop of `process_awards` (lines 122–151). -/
def awardsFoldRes (orig : String) : String × List String :=
  (tokensOf orig).foldl awardStep ("", [])

/-- One row of `process_awards` (lines 114–162): fold the tokens,
then the defensive fallback (lines 153–155) wrapping the whole original
text when the constructed display is empty but the original is not. -/
def processAwardsRow (orig : String) : String × List String :=
  if (awardsFoldRes orig).1 = "" ∧ orig ≠ "" then (wrapTok orig, (awardsFoldRes orig).2)
  else awardsFoldRes orig

/-- Cell-level behavior of `process_awards`: the row mask (line 110)
`df['Awards'].notna() & (df['Awards'].str.strip() != '')` leaves `NaN`
cells and whitespace-only cells untouched (award columns stay 0). -/
def classifyAwardsCell (cell : Option String) : Option String × List String :=
  match cell with
  | none => (none, [])
  | some s =>
    if strTrim s = "" then (some s, [])
    else ((processAwardsRow s).1, (processAwardsRow s).2)

/-- Per-token classification of `process_playoffs_awards` (lines 210–219):
only the literal `"Finals MVP-1"` sets the Final MVP flag. -/
def processPartPO (part : String) : String × Bool :=
  if part = "Finals MVP-1" then (wrapTok part, true) else (wrapTok part, false)

/-- One iteration of the token loop of `process_playoffs_awards`. -/
def poStep (acc : String × Bool) (part : String) : String × Bool :=
  (acc.1 ++ (processPartPO part).1, acc.2 || (processPartPO part).2)

/-- The token loop of `process_playoffs_awards` (lines 204–219). -/
def poFoldRes (orig : String) : String × Bool :=
  (tokensOf orig).foldl poStep ("", false)

/-- One row of `process_playoffs_awards` (lines 199–226), with the same
empty-display fallback. -/
def processPlayoffsRow (orig : String) : String × Bool :=
  if (poFoldRes orig).1 = "" ∧ orig ≠ "" then (wrapTok orig, (poFoldRes orig).2)
  else poFoldRes orig

/-- Cell-level behavior of `process_playoffs_awards` (mask at line 196). -/
def classifyPlayoffsCell (cell : Option String) : Option String × Bool :=
  match cell with
  | none => (none, false)
  | some s =>
    if strTrim s = "" then (some s, false)
    else ((processPlayoffsRow s).1, (processPlayoffsRow s).2)

/-! ## Multi-Team Consolidation (`Code/modify_single_season.py`) -/

/-- One raw row of a single-season table, as seen by the consolidation
step of `process_nba_csv`: the player identity, the games count `G`,
and the remaining statistical payload (abstracted into one field so
that distinct duplicate rows stay distinguishable). -/
structure MRow where
  player : String
  g : ℚ
  rest : ℚ
deriving DecidableEq

/-- `group['G'].idxmax()` followed by `group.loc[...]`: the first row
of the group attaining the maximal `G` value. -/
def firstMaxG : List MRow → Option MRow
  | [] => none
  | r :: rs =>
    match firstMaxG rs with
    | none => some r
    | some r' => if r'.g > r.g then some r' else some r

/-- Per-player branch of `process_nba_csv` (lines 65–74): a single-row
group is kept as is, a multi-row group is reduced to its first
maximal-`G` row. -/
def consolidatePlayer (rows : List MRow) (p : String) : Option MRow :=
  let grp := rows.filter (fun r => r.player = p)
  match grp with
  | [x] => some x
  | grp' => firstMaxG grp'

/-- The groupby-consolidation core of `process_nba_csv` (lines 57–80).
pandas `groupby` sorts groups by key; group order is irrelevant to the
properties proved here, so groups are emitted in first-appearance
order of the player name. -/
def consolidateRows (rows : List MRow) : List MRow :=
  (firstAppearance (rows.map (fun r => r.player))).filterMap (consolidatePlayer rows)

theorem firstMaxG_eq_none (l : List MRow) : firstMaxG l = none ↔ l = [] := by
  cases l with
  | nil => simp [firstMaxG]
  | cons a as =>
    simp only [firstMaxG]
    cases firstMaxG as with
    | none => simp
    | some r' => by_cases hgt : r'.g > a.g <;> simp [hgt]

theorem firstMaxG_spec (l : List MRow) (r : MRow) (h : firstMaxG l = some r) :
    r ∈ l ∧ ∀ r' ∈ l, r'.g ≤ r.g := by
  induction l generalizing r with
  | nil => simp [firstMaxG] at h
  | cons a as ih =>
    rw [firstMaxG] at h
    cases hrec : firstMaxG as with
    | none =>
      rw [hrec] at h
      have has : as = [] := (firstMaxG_eq_none as).1 hrec
      subst has
      simp at h
      subst h
      refine ⟨List.mem_cons_self _ _, ?_⟩
      intro r' hr'
      rcases List.mem_cons.1 hr' with rfl | hr'
      · exact le_refl _
      · simp at hr'
    | some rbest =>
      rw [hrec] at h
      rcases ih rbest hrec with ⟨hmem, hmax⟩
      by_cases hgt : rbest.g > a.g
      · simp only [hgt, if_true] at h
        obtain rfl := (Option.some_inj.1 h)
        refine ⟨List.mem_cons_of_mem a hmem, ?_⟩
        intro r' hr'
        rcases List.mem_cons.1 hr' with rfl | hr'
        · exact le_of_lt hgt
        · exact hmax r' hr'
      · simp only [hgt, if_false] at h
        obtain rfl := (Option.some_inj.1 h)
        refine ⟨List.mem_cons_self _ _, ?_⟩
        intro r' hr'
        rcases List.mem_cons.1 hr' with rfl | hr'
        · exact le_refl _
        · exact le_trans (hmax r' hr') (not_lt.1 hgt)

theorem firstMaxG_isSome (l : List MRow) (h : l ≠ []) : (firstMaxG l).isSome = true := by
  cases l with
  | nil => exact absurd rfl h
  | cons a as =>
    simp only [firstMaxG]
    cases firstMaxG as with
    | none => simp
    | some r' => by_cases hgt : r'.g > a.g <;> simp [hgt]

theorem consolidatePlayer_eq (rows : List MRow) (p : String) :
    consolidatePlayer rows p = firstMaxG (rows.filter (fun r => r.player = p)) := by
  unfold consolidatePlayer
  cases hg : rows.filter (fun r => r.player = p) with
  | nil => rfl
  | cons a as => cases as with
    | nil => simp [firstMaxG]
    | cons b bs => rfl

theorem consolidatePlayer_sound (rows : List MRow) (p : String) (r : MRow)
    (h : consolidatePlayer rows p = some r) :
    r.player = p ∧ r ∈ rows ∧ ∀ r' ∈ rows, r'.player = p → r'.g ≤ r.g := by
  rw [consolidatePlayer_eq] at h
  rcases firstMaxG_spec _ _ h with ⟨hmem, hmax⟩
  rcases List.mem_filter.1 hmem with ⟨hrow, hp⟩
  refine ⟨by simpa using hp, hrow, ?_⟩
  intro r' hr' hp'
  exact hmax r' (List.mem_filter.2 ⟨hr', by simpa using hp'⟩)

theorem filterMap_consolidate_filter (rows : List MRow) (p : String) :
    ∀ ps : List String, ps.Nodup →
      (ps.filterMap (consolidatePlayer rows)).filter (fun r => r.player = p)
        = if p ∈ ps then (consolidatePlayer rows p).toList else [] := by
  intro ps
  induction ps with
  | nil => intro _; simp
  | cons q qs ih =>
    intro hnd
    rcases List.nodup_cons.1 hnd with ⟨hq, hnd'⟩
    rw [List.filterMap_cons]
    cases hc : consolidatePlayer rows q with
    | none =>
      by_cases hpq : p = q
      · subst hpq
        simp only [List.mem_cons, true_or, if_true, ih hnd', if_neg hq, hc]
        rfl
      · simp only [ih hnd', List.mem_cons]
        have : (p = q ∨ p ∈ qs) ↔ p ∈ qs := by tauto
        rw [if_congr this rfl rfl]
    | some r =>
      have hrp : r.player = q := (consolidatePlayer_sound rows q r hc).1
      by_cases hpq : p = q
      · subst hpq
        have hd : decide (r.player = p) = true := by simp [hrp]
        simp only [List.filter_cons, hd, if_true, ih hnd', if_neg hq, List.mem_cons,
          true_or, if_true, hc]
        rfl
      · have hd : decide (r.player = p) = false := by
          simp only [decide_eq_false_iff_not]
          rw [hrp]
          exact fun hc2 => hpq hc2.symm
        simp only [List.filter_cons, hd, Bool.false_eq_true, if_false, ih hnd',
          List.mem_cons]
        have hiff : (p = q ∨ p ∈ qs) ↔ p ∈ qs := by tauto
        rw [if_congr hiff rfl rfl]

theorem consolidateRows_filter (rows : List MRow) (p : String) :
    (consolidateRows rows).filter (fun r => r.player = p)
      = (firstMaxG (rows.filter (fun r => r.player = p))).toList := by
  unfold consolidateRows
  rw [filterMap_consolidate_filter rows p _ (firstAppearance_nodup _)]
  by_cases hp : p ∈ firstAppearance (rows.map (fun r => r.player))
  · rw [if_pos hp, consolidatePlayer_eq]
  · rw [if_neg hp]
    have : rows.filter (fun r => r.player = p) = [] := by
      rw [List.filter_eq_nil]
      intro r hr hcp
      apply hp
      rw [firstAppearance_mem]
      exact List.mem_map.2 ⟨r, hr, by simpa using hcp⟩
    rw [this]
    rfl

/-! ## Era Imputer (`impute_missing_values`, identical in
`Code/consolidate_impute_HOF_career.py` and
`Code/consolidate_impute_NBA_careerpy.py`) -/

/-- The imputable metrics, `all_metrics` of `impute_missing_values`
(line 27): MP, PER, TS%, 3PAr, FTr, ORB%, DRB%, TRB%, AST%, STL%, BLK%,
TOV%, USG%, WS/48, OBPM, DBPM, BPM. -/
inductive Metric
  | mp | per | ts | par3 | ftr | orb | drb | trb | ast
  | stl | blk | tov | usg | ws48 | obpm | dbpm | bpm
deriving DecidableEq

/-- `all_metrics` in the source order. -/
def all_metrics : List Metric :=
  [.mp, .per, .ts, .par3, .ftr, .orb, .drb, .trb, .ast,
   .stl, .blk, .tov, .usg, .ws48, .obpm, .dbpm, .bpm]

/-- The four era labels of `pd.cut` (lines 22–24). -/
inductive Era
  | preModern | earlyModern | modern | contemporary
deriving DecidableEq

/-- `pd.cut(year, bins=[1940, 1960, 1980, 2000, 2025], labels=...)`:
right-closed intervals; a year outside `(1940, 2025]` gets no era
(`NaN` label). -/
def yearToEra (y : ℤ) : Option Era :=
  if 1940 < y ∧ y ≤ 1960 then some Era.preModern
  else if 1960 < y ∧ y ≤ 1980 then some Era.earlyModern
  else if 1980 < y ∧ y ≤ 2000 then some Era.modern
  else if 2000 < y ∧ y ≤ 2025 then some Era.contemporary
  else none

/-- One season record as consumed by `impute_missing_values`:
`year` is `int(Season.split('-')[0])` (line 19), `g` the games column
`G`, and `val` the (nullable) imputable metric columns. -/
structure SeasonRow where
  player : String
  year : ℤ
  g : ℚ
  val : Metric → Option ℚ

/-- Era assignment of a row (the `Era` column). -/
def rowEra (r : SeasonRow) : Option Era := yearToEra r.year

/-- `df_imputed[df_imputed['Era'] == era]`: the rows of one era, in
table order. -/
def eraRows (t : List SeasonRow) (e : Era) : List SeasonRow :=
  t.filter (fun r => rowEra r = some e)

/-- Overwrite one metric cell of a row. -/
def setVal (r : SeasonRow) (m : Metric) (q : ℚ) : SeasonRow :=
  { r with val := fun m' => if m' = m then some q else r.val m' }

/-- `df_imputed.loc[era_df.index, metric] = scalar`: write one scalar to
the metric column of every row of the era. -/
def setEraMetric (t : List SeasonRow) (e : Era) (m : Metric) (q : ℚ) :
    List SeasonRow :=
  t.map (fun r => if rowEra r = some e then setVal r m q else r)

/-- `df_imputed.loc[era_df.index, metric] = imputed_values[:, -1]`:
write a column of values positionally to the era's rows. -/
def writeCol : List SeasonRow → Era → Metric → List ℚ → List SeasonRow
  | [], _, _, _ => []
  | r :: rs, e, m, col =>
    if rowEra r = some e then
      match col with
      | [] => r :: writeCol rs e m []
      | v :: vs => setVal r m v :: writeCol rs e m vs
    else r :: writeCol rs e m col

/-- A feature column for the KNN slice: `G` or one of the metrics. -/
inductive FeatCol
  | g
  | metric (m : Metric)
deriving DecidableEq

/-- Read a feature cell from a row (`G` is never null). -/
def cellOf (r : SeasonRow) : FeatCol → Option ℚ
  | FeatCol.g => some r.g
  | FeatCol.metric m => r.val m

/-- `features` of the era loop (lines 38–44): base feature `G` plus every
imputable metric that is not entirely missing in the era snapshot. -/
def eraFeatures (cols : List Metric) (snap : List SeasonRow) : List FeatCol :=
  FeatCol.g :: (cols.filter
    (fun m => !(snap.all (fun r => (r.val m).isNone)))).map FeatCol.metric

/-- `temp_features` (lines 50–54): the features minus the target metric;
if that were empty, fall back to `['G']` (dead branch, `G` is always a
feature, kept for faithfulness). -/
def tempFeatures (cols : List Metric) (snap : List SeasonRow) (m : Metric) :
    List FeatCol :=
  let tf := (eraFeatures cols snap).filter (fun c => c ≠ FeatCol.metric m)
  if tf = [] then [FeatCol.g] else tf

/-- `era_df[temp_features + [metric]]`: the data slice handed to
`KNNImputer.fit_transform`, one inner list per era row. -/
def knnMatrix (cols : List Metric) (snap : List SeasonRow) (m : Metric) :
    List (List (Option ℚ)) :=
  snap.map (fun r => (tempFeatures cols snap m).map (cellOf r) ++ [r.val m])

/-- Arithmetic mean of a nonempty value list. -/
def listMean (l : List ℚ) : ℚ := l.sum / (l.length : ℚ)

/-- Fallback constants (lines 71–75 and 91–96): 20.0 for minutes played,
0.0 for every other metric. -/
def defaultVal : Metric → ℚ
  | Metric.mp => 20
  | _ => 0

/-- `df_imputed[metric].mean()` with the all-`NaN` default (lines 69–76):
mean of the non-missing values of the metric over the whole (live)
table, or the fixed default if every value is missing. -/
def globalMeanOrDefault (t : List SeasonRow) (m : Metric) : ℚ :=
  let present := t.filterMap (fun r => r.val m)
  if present = [] then defaultVal m else listMean present

/-- Body of the per-metric loop of the first pass (lines 47–76).
`snap` is the stale per-era snapshot `era_df` (computed once per era,
line 35, a copy not reflecting later writes); `t` is the live table
`df_imputed`.  If the era snapshot has more than one record, the KNN
oracle is consulted with `n_neighbors = min(5, len(era_df))` and its
output column overwrites the era's metric column; with exactly one
record the live global mean (or default) is written. -/
def imputeEraMetricStep (knn : ℕ → List (List (Option ℚ)) → List ℚ)
    (e : Era) (cols : List Metric) (snap : List SeasonRow)
    (t : List SeasonRow) (m : Metric) : List SeasonRow :=
  if snap.any (fun r => (r.val m).isNone) then
    if 1 < snap.length then
      writeCol t e m (knn (min 5 snap.length) (knnMatrix cols snap m))
    else
      setEraMetric t e m (globalMeanOrDefault t m)
  else t

/-- One iteration of the era loop of the first pass (lines 34–76):
snapshot the era, then fold the metric loop over the live table. -/
def imputeEra (knn : ℕ → List (List (Option ℚ)) → List ℚ)
    (cols : List Metric) (t : List SeasonRow) (e : Era) : List SeasonRow :=
  cols.foldl (imputeEraMetricStep knn e cols (eraRows t e)) t

/-- `df_imputed['Era'].unique()`: era labels in first-appearance order
(the `NaN` label selects an empty sub-table and its iteration is a
no-op, so it is omitted). -/
def erasOrder (t : List SeasonRow) : List Era :=
  firstAppearance (t.filterMap rowEra)

/-- First pass of `impute_missing_values` (lines 34–76). -/
def imputePass1 (knn : ℕ → List (List (Option ℚ)) → List ℚ)
    (cols : List Metric) (t : List SeasonRow) : List SeasonRow :=
  (erasOrder t).foldl (fun acc e => imputeEra knn cols acc e) t

/-- The fixed era order of the second pass (line 80). -/
def allErasChron : List Era :=
  [Era.preModern, Era.earlyModern, Era.modern, Era.contemporary]

/-- The fixed search list of the second pass (line 84) — it starts at
Early-modern regardless of which era is deficient. -/
def searchEras : List Era :=
  [Era.earlyModern, Era.modern, Era.contemporary]

/-- `potential_era_df[metric].mean()` guarded by the not-all-missing
check (lines 85–88): `none` when the era has no present value. -/
def eraMeanOpt (t : List SeasonRow) (e : Era) (m : Metric) : Option ℚ :=
  let present := (eraRows t e).filterMap (fun r => r.val m)
  if present = [] then none else some (listMean present)

/-- One (metric, era) iteration of the second pass (lines 81–96).
`era_df` is a boolean-indexed copy taken before the fill, so the
re-check `era_df[metric].isna().all()` at line 92 still sees the
all-missing snapshot after the backfill write at line 89; the default
assignment therefore runs unconditionally and overwrites the
backfilled mean. -/
def backfillStep (t : List SeasonRow) (m : Metric) (e : Era) :
    List SeasonRow :=
  if (eraRows t e).all (fun r => (r.val m).isNone) then
    let t1 :=
      match searchEras.findSome? (fun pe => eraMeanOpt t pe m) with
      | some avg => setEraMetric t e m avg
      | none => t
    setEraMetric t1 e m (defaultVal m)
  else t

/-- Second pass of `impute_missing_values` (lines 78–96): cross-era
backfill for metrics entirely missing within an era. -/
def crossEraBackfill (cols : List Metric) (t : List SeasonRow) :
    List SeasonRow :=
  cols.foldl (fun acc m => allErasChron.foldl (fun acc2 e => backfillStep acc2 m e) acc) t

/-- Rounding of all numeric columns to 3 decimals (lines 98–100). -/
def roundRow (r : SeasonRow) : SeasonRow :=
  { r with g := round3 r.g, val := fun m => (r.val m).map round3 }

/-- `impute_missing_values` (lines 14–105): first pass, second pass,
round; `cols` is `metrics_to_impute`, the members of `all_metrics`
present in the frame (line 31). -/
def impute_missing_values (knn : ℕ → List (List (Option ℚ)) → List ℚ)
    (cols : List Metric) (t : List SeasonRow) : List SeasonRow :=
  (crossEraBackfill cols (imputePass1 knn cols t)).map roundRow

/-! ## Career Aggregator (`calculate_career_stats` of
`Code/consolidate_impute_NBA_careerpy.py` — the "NBA" version with
`safe_weighted_average` — and of `Code/consolidate_impute_HOF_career.py`
— the "HOF" version with a bare `np.average`). -/

/-- The columns of the season frame consumed by `calculate_career_stats`
other than `Player`: `HOF`, the summed counting stats, the
minutes-weighted rate metrics, and the award-count columns
(`allStar` is `AS`, `sixMOY` is `6MOY`, `finalMVP` is `Final MVP`). -/
inductive CCol
  | hof
  | g | mp | ows | dws | ws | vorp
  | per | ts | par3 | ftr | orb | drb | trb | ast
  | stl | blk | tov | usg | ws48 | obpm | dbpm | bpm
  | mvp | dpoy | roy | mip | cpoy | allStar | def1 | def2
  | nba1 | nba2 | nba3 | sixMOY | finalMVP
deriving DecidableEq

/-- `sum_metrics` (line 122): `['G', 'MP', 'OWS', 'DWS', 'WS', 'VORP']`. -/
def sumMetricsC : List CCol := [.g, .mp, .ows, .dws, .ws, .vorp]

/-- `weighted_by_mp` (lines 130–131). -/
def weightedByMP : List CCol :=
  [.per, .ts, .par3, .ftr, .usg, .ws48, .orb, .drb, .trb,
   .ast, .stl, .blk, .tov, .obpm, .dbpm, .bpm]

/-- `award_columns` (lines 143–144 / 160–161). -/
def awardColumnsC : List CCol :=
  [.mvp, .dpoy, .roy, .mip, .cpoy, .allStar, .def1, .def2,
   .nba1, .nba2, .nba3, .sixMOY, .finalMVP]

/-- Boolean membership in a concrete column list. -/
def memB (c : CCol) (l : List CCol) : Bool := l.any (fun x => decide (x = c))

/-- One row of the season frame seen by `calculate_career_stats`. -/
structure CRow where
  player : String
  val : CCol → Option ℚ

/-- A frame: which optional columns are present, plus the rows.
(The `Player` column is always present; its absence is a fatal
structural error outside the properties modeled here.) -/
structure CTable where
  present : CCol → Bool
  rows : List CRow

/-- `df.groupby('Player')` group of one player, in row order. -/
def groupRows (t : CTable) (p : String) : List CRow :=
  t.rows.filter (fun r => r.player = p)

/-- `df['Player'].unique()` (line 113): first-appearance order. -/
def uniquePlayers (t : CTable) : List String :=
  firstAppearance (t.rows.map (fun r => r.player))

/-- One column of a group. -/
def colVals (g : List CRow) (c : CCol) : List (Option ℚ) :=
  g.map (fun r => r.val c)

/-- pandas `Series.mean()`: mean of the non-null values, `NaN` (none)
when all are null. -/
def pandasMean (l : List (Option ℚ)) : Option ℚ :=
  let p := l.filterMap id
  if p = [] then none else some (listMean p)

/-- pandas `Series.sum()`: sum of the non-null values (0 when empty). -/
def pandasSum (l : List (Option ℚ)) : ℚ := (l.filterMap id).sum

/-- pandas `GroupBy.first()`: the first non-null value. -/
def pandasFirst (l : List (Option ℚ)) : Option ℚ := (l.filterMap id).head?

/-- `np.average(values, weights=w)`: raises `ZeroDivisionError` when the
weights sum to zero; with a `NaN` weight the sum is `NaN` (≠ 0) and the
result is `NaN`; with a `NaN` value the result is `NaN`. -/
def npAverage (vals ws : List (Option ℚ)) : Except String (Option ℚ) :=
  if ws.any Option.isNone then Except.ok none
  else
    let w := ws.filterMap id
    if w.sum = 0 then Except.error "ZeroDivisionError: Weights sum to zero, can't be normalized"
    else if vals.any Option.isNone then Except.ok none
    else Except.ok (some ((((vals.filterMap id).zip w).map (fun pr => pr.1 * pr.2)).sum / w.sum))

/-- `safe_weighted_average` of the NBA version (lines 136–152): skip when
all values are `NaN`; fall back to the plain mean when `MP` is absent
(the `KeyError` is caught by the bare `except`) or when the weights are
all zero / sum to zero; otherwise `np.average`, with any exception
falling back to the plain mean. -/
def safe_weighted_average (t : CTable) (m : CCol) (grp : List CRow) : Option ℚ :=
  if (colVals grp m).all Option.isNone then none
  else if t.present CCol.mp = false then pandasMean (colVals grp m)
  else if ((colVals grp CCol.mp).all (fun o => o = some 0))
          ∨ pandasSum (colVals grp CCol.mp) = 0 then pandasMean (colVals grp m)
  else
    match npAverage (colVals grp m) (colVals grp CCol.mp) with
    | Except.ok v => v
    | Except.error _ => pandasMean (colVals grp m)

/-- The weighted-average lambda of the HOF version (lines 136–138):
`np.average(x[metric], weights=x['MP'])` with no guard; a missing `MP`
column is a `KeyError`, a zero weight sum a `ZeroDivisionError`, and
both abort the run. -/
def hofWeightedVal (t : CTable) (m : CCol) (p : String) :
    Except String (Option ℚ) :=
  if t.present CCol.mp = false then Except.error "KeyError: MP"
  else npAverage (colVals (groupRows t p) m) (colVals (groupRows t p) CCol.mp)

/-- The output schema rule shared by both versions: `HOF` if present,
and each sum / weighted / award column if present in the input
(`if metric in df.columns` guards at lines 116, 125, 134, 147). -/
def careerOutPresent (t : CTable) (c : CCol) : Bool :=
  (decide (c = CCol.hof) && t.present CCol.hof)
  || ((memB c sumMetricsC || memB c weightedByMP || memB c awardColumnsC)
      && t.present c)

/-- One output cell of the NBA `calculate_career_stats` (lines 108–172),
with the final `round(3)` applied to every numeric column. -/
def nbaCareerVal (t : CTable) (p : String) (c : CCol) : Option ℚ :=
  if careerOutPresent t c then
    if c = CCol.hof then (pandasFirst (colVals (groupRows t p) CCol.hof)).map round3
    else if memB c sumMetricsC then some (round3 (pandasSum (colVals (groupRows t p) c)))
    else if memB c weightedByMP then (safe_weighted_average t c (groupRows t p)).map round3
    else some (round3 (pandasSum (colVals (groupRows t p) c)))
  else none

/-- `calculate_career_stats` of the NBA version: one career row per
distinct player. -/
def nbaCareerStats (t : CTable) : CTable :=
  { present := careerOutPresent t
  , rows := (uniquePlayers t).map (fun p => { player := p, val := nbaCareerVal t p }) }

/-- One output cell of the HOF `calculate_career_stats` (lines 108–155),
assuming the weighted averages did not raise. -/
def hofCareerVal (t : CTable) (p : String) (c : CCol) : Option ℚ :=
  if careerOutPresent t c then
    if c = CCol.hof then (pandasFirst (colVals (groupRows t p) CCol.hof)).map round3
    else if memB c sumMetricsC then some (round3 (pandasSum (colVals (groupRows t p) c)))
    else if memB c weightedByMP then ((hofWeightedVal t c p).toOption.join).map round3
    else some (round3 (pandasSum (colVals (groupRows t p) c)))
  else none

/-- `calculate_career_stats` of the HOF version: the weighted-average
loop (metric-major, player-minor in the source; the run aborts exactly
when some present weighted metric raises for some player, which is all
the claims below consume) followed by the assembled career frame. -/
def hofCareerStats (t : CTable) : Except String CTable := do
  let ps := uniquePlayers t
  let _ ← (weightedByMP.filter (fun m => t.present m)).mapM
    (fun m => ps.mapM (fun p => hofWeightedVal t m p))
  pure { present := careerOutPresent t
       , rows := ps.map (fun p => { player := p, val := hofCareerVal t p }) }

/-- Whether an `Except` computation succeeded. -/
def exceptOk {ε α : Type} : Except ε α → Bool
  | Except.ok _ => true
  | Except.error _ => false

/-! ## Award classifier lemmas -/

theorem processPart_text (part : String) : (processPart part).1 = wrapTok part := by
  unfold processPart
  by_cases h : part ∈ fixed_awards
  · simp [h]
  · rw [if_neg h]
    cases award_prefixes.find? (fun pr => strStartsWith part pr.1) <;> rfl

theorem processPart_flag (p f : String) :
    (processPart p).2 = some f ↔
      (p ∈ fixed_awards ∧ f = p) ∨
      ∃ pr ∈ award_prefixes, f = pr.2 ∧ p = pr.1 ++ "1" := by
  constructor
  · intro h
    unfold processPart at h
    by_cases hfx : p ∈ fixed_awards
    · rw [if_pos hfx] at h
      simp at h
      exact Or.inl ⟨hfx, h.symm⟩
    · rw [if_neg hfx] at h
      cases hfind : award_prefixes.find? (fun pr => strStartsWith p pr.1) with
      | none => rw [hfind] at h; simp at h
      | some pr =>
        rw [hfind] at h
        by_cases hp1 : p = pr.1 ++ "1"
        · simp only [hp1, if_true] at h
          simp at h
          exact Or.inr ⟨pr, List.mem_of_find?_eq_some hfind, h.symm, hp1⟩
        · simp [hp1] at h
  · rintro (⟨hfx, rfl⟩ | ⟨pr, hmem, hf, hp⟩)
    · unfold processPart
      rw [if_pos hfx]
    · subst hf
      subst hp
      simp only [award_prefixes, List.mem_cons, List.not_mem_nil, or_false] at hmem
      rcases hmem with rfl | rfl | rfl | rfl | rfl | rfl <;> decide

theorem addFlag_mem (fls : List String) (o : Option String) (f : String) :
    f ∈ addFlag fls o ↔ f ∈ fls ∨ o = some f := by
  cases o with
  | none => simp [addFlag]
  | some x =>
    by_cases hx : x ∈ fls <;> by_cases hfx : f = x <;>
      simp [addFlag, hx, hfx] <;> tauto

theorem awardsFold_text (parts : List String) :
    ∀ acc : String × List String,
      (parts.foldl awardStep acc).1 = acc.1 ++ joinStr (parts.map wrapTok) := by
  induction parts with
  | nil => intro acc; simp [joinStr, String.append_empty]
  | cons p ps ih =>
    intro acc
    rw [List.foldl_cons, ih, List.map_cons]
    show _ = acc.1 ++ (wrapTok p ++ joinStr (ps.map wrapTok))
    rw [awardStep, processPart_text, String.append_assoc]

theorem awardsFold_flags (parts : List String) :
    ∀ (acc : String × List String) (f : String),
      f ∈ (parts.foldl awardStep acc).2
        ↔ f ∈ acc.2 ∨ ∃ p ∈ parts, (processPart p).2 = some f := by
  induction parts with
  | nil => intro acc f; simp
  | cons p ps ih =>
    intro acc f
    rw [List.foldl_cons, ih]
    rw [show (awardStep acc p).2 = addFlag acc.2 (processPart p).2 from rfl]
    rw [addFlag_mem]
    constructor
    · rintro ((hacc | hsome) | ⟨q, hq, hflag⟩)
      · exact Or.inl hacc
      · exact Or.inr ⟨p, List.mem_cons_self _ _, hsome⟩
      · exact Or.inr ⟨q, List.mem_cons_of_mem _ hq, hflag⟩
    · rintro (hacc | ⟨q, hq, hflag⟩)
      · exact Or.inl (Or.inl hacc)
      · rcases List.mem_cons.1 hq with rfl | hq'
        · exact Or.inl (Or.inr hflag)
        · exact Or.inr ⟨q, hq', hflag⟩

theorem wrapTok_join_ne_empty (p : String) (rest : List String) :
    joinStr (wrapTok p :: rest) ≠ "" := by
  intro h
  have hd := congrArg String.data h
  have h1 : joinStr (wrapTok p :: rest) = ("/" ++ p ++ "/") ++ joinStr rest := rfl
  rw [h1] at hd
  simp only [String.data_append] at hd
  simp at hd

theorem processAwardsRow_text (s : String) (hne : tokensOf s ≠ []) :
    (processAwardsRow s).1 = joinStr ((tokensOf s).map wrapTok) := by
  have htext : (awardsFoldRes s).1 = joinStr ((tokensOf s).map wrapTok) := by
    rw [awardsFoldRes, awardsFold_text]
    exact String.empty_append _
  cases hts : tokensOf s with
  | nil => exact absurd hts hne
  | cons t0 trest =>
    rw [hts] at htext
    have hne2 : (awardsFoldRes s).1 ≠ "" := by
      rw [htext]
      exact wrapTok_join_ne_empty t0 (trest.map wrapTok)
    unfold processAwardsRow
    rw [if_neg (fun hc => hne2 hc.1)]
    exact htext

theorem processAwardsRow_flags (s : String) (f : String) :
    f ∈ (processAwardsRow s).2 ↔ ∃ p ∈ tokensOf s, (processPart p).2 = some f := by
  have hfl : f ∈ (awardsFoldRes s).2 ↔ ∃ p ∈ tokensOf s, (processPart p).2 = some f := by
    rw [awardsFoldRes, awardsFold_flags]
    simp
  unfold processAwardsRow
  split
  · exact hfl
  · exact hfl

theorem poFold_text (parts : List String) :
    ∀ acc : String × Bool,
      (parts.foldl poStep acc).1 = acc.1 ++ joinStr (parts.map wrapTok) := by
  induction parts with
  | nil => intro acc; simp [joinStr, String.append_empty]
  | cons p ps ih =>
    intro acc
    rw [List.foldl_cons, ih, List.map_cons]
    show _ = acc.1 ++ (wrapTok p ++ joinStr (ps.map wrapTok))
    have hpt : (processPartPO p).1 = wrapTok p := by
      unfold processPartPO
      by_cases h : p = "Finals MVP-1" <;> simp [h]
    rw [poStep, hpt, String.append_assoc]

theorem poFold_flag (parts : List String) :
    ∀ acc : String × Bool,
      (parts.foldl poStep acc).2 = (acc.2 || parts.any (fun p => decide (p = "Finals MVP-1"))) := by
  induction parts with
  | nil => intro acc; simp
  | cons p ps ih =>
    intro acc
    rw [List.foldl_cons, ih]
    have hstep : (poStep acc p).2 = (acc.2 || decide (p = "Finals MVP-1")) := by
      unfold poStep processPartPO
      by_cases h : p = "Finals MVP-1" <;> simp [h]
    rw [hstep, List.any_cons]
    cases acc.2 <;> simp [Bool.or_assoc]

theorem processPlayoffsRow_text (s : String) (hne : tokensOf s ≠ []) :
    (processPlayoffsRow s).1 = joinStr ((tokensOf s).map wrapTok) := by
  have htext : (poFoldRes s).1 = joinStr ((tokensOf s).map wrapTok) := by
    rw [poFoldRes, poFold_text]
    exact String.empty_append _
  cases hts : tokensOf s with
  | nil => exact absurd hts hne
  | cons t0 trest =>
    rw [hts] at htext
    have hne2 : (poFoldRes s).1 ≠ "" := by
      rw [htext]
      exact wrapTok_join_ne_empty t0 (trest.map wrapTok)
    unfold processPlayoffsRow
    rw [if_neg (fun hc => hne2 hc.1)]
    exact htext

theorem processPlayoffsRow_flag (s : String) :
    (processPlayoffsRow s).2 = true ↔ "Finals MVP-1" ∈ tokensOf s := by
  have hfl : (poFoldRes s).2 = true ↔ "Finals MVP-1" ∈ tokensOf s := by
    rw [poFoldRes, poFold_flag]
    simp only [Bool.false_or, List.any_eq_true, decide_eq_true_eq]
    constructor
    · rintro ⟨p, hp, rfl⟩; exact hp
    · intro h; exact ⟨_, h, rfl⟩
  unfold processPlayoffsRow
  split
  · exact hfl
  · exact hfl

/-! ## Claims about the Award Classifier -/

/-- Claim C4: in regular-season mode, for every non-empty token list,
every token is wrapped in slashes in order; a token equal to an
unranked code sets that flag, a token `prefix + "1"` of a rank-qualified
prefix sets the base flag (ranks other than the literal `"1"` set no
flag), and any other token sets no flag; in particular
`"MVP-1,AS,NBA1"` yields display `"/MVP-1//AS//NBA1/"` with flags
MVP, AS, NBA1, and `"MVP-2,AS"` yields `"/MVP-2//AS/"` with only AS. -/
theorem c4_theorem (s : String) (hne : tokensOf s ≠ []) :
    (processAwardsRow s).1 = joinStr ((tokensOf s).map wrapTok)
    ∧ (∀ f : String, f ∈ (processAwardsRow s).2 ↔
        (f ∈ fixed_awards ∧ f ∈ tokensOf s)
        ∨ ∃ pr ∈ award_prefixes, f = pr.2 ∧ (pr.1 ++ "1") ∈ tokensOf s)
    ∧ processAwardsRow "MVP-1,AS,NBA1" = ("/MVP-1//AS//NBA1/", ["MVP", "AS", "NBA1"])
    ∧ processAwardsRow "MVP-2,AS" = ("/MVP-2//AS/", ["AS"]) := by
  refine ⟨processAwardsRow_text s hne, ?_, by decide, by decide⟩
  intro f
  rw [processAwardsRow_flags]
  constructor
  · rintro ⟨p, hp, hflag⟩
    rcases (processPart_flag p f).1 hflag with ⟨hfx, rfl⟩ | ⟨pr, hmem, hf, hp1⟩
    · exact Or.inl ⟨hfx, hp⟩
    · exact Or.inr ⟨pr, hmem, hf, hp1 ▸ hp⟩
  · rintro (⟨hfx, hmemtok⟩ | ⟨pr, hmem, hf, hmemtok⟩)
    · exact ⟨f, hmemtok, (processPart_flag f f).2 (Or.inl ⟨hfx, rfl⟩)⟩
    · exact ⟨pr.1 ++ "1", hmemtok, (processPart_flag _ f).2 (Or.inr ⟨pr, hmem, hf, rfl⟩)⟩

/-- The regular-season example raw string. -/
def exS4 : String := "MVP-1,AS,NBA1"

/-- Witness for C4 at `"MVP-1,AS,NBA1"`. -/
theorem c4_witness :
    (tokensOf exS4 ≠ [])
    ∧ processAwardsRow exS4 = ("/MVP-1//AS//NBA1/", ["MVP", "AS", "NBA1"]) :=
  ⟨by decide, (c4_theorem exS4 (by decide)).2.2.1⟩

/-- Claim C7: in postseason mode, every token is wrapped in slashes in
order; the Finals-MVP flag is set exactly when some token is the
literal `"Finals MVP-1"`; in particular `"Finals MVP-1"` yields display
`"/Finals MVP-1/"` with the flag set, and `"AS"` yields `"/AS/"` with
no flag. -/
theorem c7_theorem (s : String) (hne : tokensOf s ≠ []) :
    (processPlayoffsRow s).1 = joinStr ((tokensOf s).map wrapTok)
    ∧ ((processPlayoffsRow s).2 = true ↔ "Finals MVP-1" ∈ tokensOf s)
    ∧ processPlayoffsRow "Finals MVP-1" = ("/Finals MVP-1/", true)
    ∧ processPlayoffsRow "AS" = ("/AS/", false) :=
  ⟨processPlayoffsRow_text s hne, processPlayoffsRow_flag s, by decide, by decide⟩

/-- The postseason example raw string. -/
def exS7 : String := "AS"

/-- Witness for C7 at `"AS"`. -/
theorem c7_witness :
    (tokensOf exS7 ≠ []) ∧ processPlayoffsRow exS7 = ("/AS/", false) :=
  ⟨by decide, (c7_theorem exS7 (by decide)).2.2.2⟩

/-- Counterexample for C3 as stated: for the raw string `",,"` whose
token list is empty, the display output is not left empty — the
fallback wraps the entire original text, yielding `"/,,/"` (flags are
indeed left empty). -/
theorem c3_counterexample :
    tokensOf ",," = []
    ∧ classifyAwardsCell (some ",,") = (some "/,,/", [])
    ∧ "/,,/" ≠ "" :=
  ⟨by decide, by decide, by decide⟩

/-- Claim C3 (amended): for a raw awards string whose token list is
empty, no flag is set, but the display is not empty: if the stripped
raw text is non-empty (e.g. only commas) the whole original is wrapped
in one slash pair by the fallback; a missing cell or a whitespace-only
cell is skipped by the row mask and left unchanged, with no flags. -/
theorem c3_theorem (s : String) (h1 : strTrim s ≠ "") (h2 : tokensOf s = []) :
    classifyAwardsCell (some s) = (some (wrapTok s), [])
    ∧ classifyAwardsCell none = (none, [])
    ∧ ∀ u : String, strTrim u = "" → classifyAwardsCell (some u) = (some u, []) := by
  refine ⟨?_, rfl, ?_⟩
  · have hs : s ≠ "" := fun hc => h1 (by rw [hc]; rfl)
    simp only [classifyAwardsCell]
    rw [if_neg h1]
    unfold processAwardsRow awardsFoldRes
    rw [h2]
    simp only [List.foldl_nil]
    simp [hs]
  · intro u hu
    simp only [classifyAwardsCell]
    rw [if_pos hu]

/-- The commas-only example raw string. -/
def exS3 : String := ",,"

/-- Witness for the amended C3 at `",,"`. -/
theorem c3_witness :
    (strTrim exS3 ≠ "") ∧ (tokensOf exS3 = [])
    ∧ classifyAwardsCell (some exS3) = (some (wrapTok exS3), []) :=
  ⟨by decide, by decide, (c3_theorem exS3 (by decide) (by decide)).1⟩

/-! ## Claim about Multi-Team Consolidation -/

/-- The two-row games-10 / games-60 example. -/
def ex6 : List MRow := [⟨"X", 10, 1⟩, ⟨"X", 60, 2⟩]

/-- Claim C6: after consolidation there is at most one row per player —
the rows of player `p` in the output are exactly the first maximal-`G`
row of `p`'s group; that row attains the maximal games count among the
player's rows, every other row is discarded, and a player whose group
is non-empty keeps exactly one row; in particular the games-10 /
games-60 pair keeps only the games-60 row. -/
theorem c6_theorem (rows : List MRow) (p : String) :
    ((consolidateRows rows).filter (fun r => r.player = p)
        = (firstMaxG (rows.filter (fun r => r.player = p))).toList)
    ∧ (∀ r, firstMaxG (rows.filter (fun r => r.player = p)) = some r →
        r ∈ rows ∧ r.player = p ∧ ∀ r' ∈ rows, r'.player = p → r'.g ≤ r.g)
    ∧ ((∃ r ∈ rows, r.player = p) →
        ((consolidateRows rows).filter (fun r => r.player = p)).length = 1)
    ∧ consolidateRows ex6 = [⟨"X", 60, 2⟩] := by
  refine ⟨consolidateRows_filter rows p, ?_, ?_, by decide⟩
  · intro r hr
    rcases firstMaxG_spec _ _ hr with ⟨hmem, hmax⟩
    rcases List.mem_filter.1 hmem with ⟨hrow, hp⟩
    refine ⟨hrow, by simpa using hp, ?_⟩
    intro r' hr' hp'
    exact hmax r' (List.mem_filter.2 ⟨hr', by simpa using hp'⟩)
  · rintro ⟨r, hr, hp⟩
    rw [consolidateRows_filter]
    have hgrp : rows.filter (fun r => r.player = p) ≠ [] := by
      intro hc
      have hm : r ∈ rows.filter (fun r => r.player = p) :=
        List.mem_filter.2 ⟨hr, by simpa using hp⟩
      rw [hc] at hm
      simp at hm
    cases hfm : firstMaxG (rows.filter (fun r => r.player = p)) with
    | none => exact absurd ((firstMaxG_eq_none _).1 hfm) hgrp
    | some x => simp [Option.toList]

/-- Witness for C6 at the two-row games-10 / games-60 example. -/
theorem c6_witness :
    (∃ r ∈ ex6, r.player = "X")
    ∧ consolidateRows ex6 = [⟨"X", 60, 2⟩]
    ∧ ((consolidateRows ex6).filter (fun r => r.player = "X")).length = 1 :=
  ⟨by decide,
   (c6_theorem ex6 "X").2.2.2,
   (c6_theorem ex6 "X").2.2.1 (by decide)⟩

/-! ## Era Imputer lemmas -/

/-- The metric column of one era of the table. -/
def eraColumn (t : List SeasonRow) (e : Era) (m : Metric) : List (Option ℚ) :=
  (eraRows t e).map (fun r => r.val m)

theorem rowEra_setVal (r : SeasonRow) (m : Metric) (q : ℚ) :
    rowEra (setVal r m q) = rowEra r := rfl

theorem setVal_val_ne (r : SeasonRow) (m : Metric) (q : ℚ) (m' : Metric)
    (h : m' ≠ m) : (setVal r m q).val m' = r.val m' := by
  simp [setVal, h]

theorem setVal_val_eq (r : SeasonRow) (m : Metric) (q : ℚ) :
    (setVal r m q).val m = some q := by
  simp [setVal]

theorem setEraMetric_map_rowEra (t : List SeasonRow) (e : Era) (m : Metric) (q : ℚ) :
    (setEraMetric t e m q).map rowEra = t.map rowEra := by
  unfold setEraMetric
  rw [List.map_map]
  apply List.map_congr_left
  intro r _
  by_cases h : rowEra r = some e <;> simp [h, rowEra_setVal]

theorem setEraMetric_map_val_ne (t : List SeasonRow) (e : Era) (m : Metric) (q : ℚ)
    (m' : Metric) (h : m' ≠ m) :
    (setEraMetric t e m q).map (fun r => r.val m') = t.map (fun r => r.val m') := by
  unfold setEraMetric
  rw [List.map_map]
  apply List.map_congr_left
  intro r _
  by_cases he : rowEra r = some e <;> simp [he, setVal_val_ne r m q m' h]

theorem writeCol_map_rowEra (t : List SeasonRow) (e : Era) (m : Metric) :
    ∀ col, (writeCol t e m col).map rowEra = t.map rowEra := by
  induction t with
  | nil => intro col; rfl
  | cons r rs ih =>
    intro col
    by_cases h : rowEra r = some e
    · simp only [writeCol]
      rw [if_pos h]
      cases col with
      | nil => simp [ih, rowEra_setVal]
      | cons v vs => simp [ih, rowEra_setVal]
    · simp only [writeCol]
      rw [if_neg h]
      simp [ih]

theorem writeCol_map_val_ne (t : List SeasonRow) (e : Era) (m : Metric)
    (m' : Metric) (h : m' ≠ m) :
    ∀ col, (writeCol t e m col).map (fun r => r.val m')
      = t.map (fun r => r.val m') := by
  induction t with
  | nil => intro col; rfl
  | cons r rs ih =>
    intro col
    by_cases he : rowEra r = some e
    · simp only [writeCol]
      rw [if_pos he]
      cases col with
      | nil => simp [ih, setVal_val_ne r m _ m' h]
      | cons v vs => simp [ih, setVal_val_ne r m v m' h]
    · simp only [writeCol]
      rw [if_neg he]
      simp [ih]

theorem eraColumn_congr (e : Era) (m : Metric) :
    ∀ t t' : List SeasonRow,
      t.map rowEra = t'.map rowEra →
      t.map (fun r => r.val m) = t'.map (fun r => r.val m) →
      eraColumn t e m = eraColumn t' e m := by
  intro t
  induction t with
  | nil =>
    intro t' h1 _
    have ht' : t' = [] := by
      cases t' with
      | nil => rfl
      | cons a as => simp at h1
    rw [ht']
  | cons r rs ih =>
    intro t' h1 h2
    cases t' with
    | nil => simp at h1
    | cons r' rs' =>
      simp only [List.map_cons, List.cons.injEq] at h1 h2
      have htail := ih rs' h1.2 h2.2
      unfold eraColumn eraRows at htail ⊢
      by_cases he : rowEra r = some e
      · have he' : rowEra r' = some e := by rw [← h1.1]; exact he
        rw [List.filter_cons, List.filter_cons,
          if_pos (by simp [he] : decide (rowEra r = some e) = true),
          if_pos (by simp [he'] : decide (rowEra r' = some e) = true),
          List.map_cons, List.map_cons, h2.1, htail]
      · have he' : ¬ rowEra r' = some e := by rw [← h1.1]; exact he
        rw [List.filter_cons, List.filter_cons,
          if_neg (by simp [he] : ¬ decide (rowEra r = some e) = true),
          if_neg (by simp [he'] : ¬ decide (rowEra r' = some e) = true),
          htail]

theorem writeCol_eraColumn (e : Era) (m : Metric) :
    ∀ (t : List SeasonRow) (col : List ℚ),
      col.length = (eraRows t e).length →
      eraColumn (writeCol t e m col) e m = col.map some := by
  intro t
  induction t with
  | nil =>
    intro col h
    have hc : col = [] := List.length_eq_zero.1 (by simpa [eraRows] using h)
    rw [hc]
    rfl
  | cons r rs ih =>
    intro col h
    by_cases he : rowEra r = some e
    · have hlen : col.length = (eraRows rs e).length + 1 := by
        simpa [eraRows, List.filter_cons, he] using h
      cases col with
      | nil => simp at hlen
      | cons v vs =>
        simp only [writeCol]
        rw [if_pos he]
        unfold eraColumn eraRows
        rw [List.filter_cons,
          if_pos (by simp [rowEra_setVal, he] :
            decide (rowEra (setVal r m v) = some e) = true),
          List.map_cons, setVal_val_eq, List.map_cons]
        have htail := ih vs (by simpa using hlen)
        unfold eraColumn eraRows at htail
        rw [htail]
    · simp only [writeCol]
      rw [if_neg he]
      have hlen : col.length = (eraRows rs e).length := by
        simpa [eraRows, List.filter_cons, he] using h
      unfold eraColumn eraRows
      rw [List.filter_cons,
        if_neg (by simp [he] : ¬ decide (rowEra r = some e) = true)]
      have htail := ih col hlen
      unfold eraColumn eraRows at htail
      rw [htail]

theorem setEraMetric_eraColumn (e : Era) (m : Metric) (q : ℚ) :
    ∀ t : List SeasonRow,
      eraColumn (setEraMetric t e m q) e m
        = List.replicate (eraRows t e).length (some q) := by
  intro t
  induction t with
  | nil => rfl
  | cons r rs ih =>
    by_cases he : rowEra r = some e
    · have hcount : (eraRows (r :: rs) e).length = (eraRows rs e).length + 1 := by
        simp [eraRows, List.filter_cons, he]
      rw [hcount, List.replicate_succ, ← ih]
      unfold setEraMetric eraColumn eraRows
      rw [List.map_cons, if_pos he, List.filter_cons,
        if_pos (by simp [rowEra_setVal, he] :
          decide (rowEra (setVal r m q) = some e) = true),
        List.map_cons, setVal_val_eq]
    · have hcount : (eraRows (r :: rs) e).length = (eraRows rs e).length := by
        simp [eraRows, List.filter_cons, he]
      rw [hcount, ← ih]
      unfold setEraMetric eraColumn eraRows
      rw [List.map_cons, if_neg he, List.filter_cons,
        if_neg (by simp [he] : ¬ decide (rowEra r = some e) = true)]

theorem globalMeanOrDefault_congr (t t' : List SeasonRow) (m : Metric)
    (h : t.map (fun r => r.val m) = t'.map (fun r => r.val m)) :
    globalMeanOrDefault t m = globalMeanOrDefault t' m := by
  have key : ∀ u : List SeasonRow,
      u.filterMap (fun r => r.val m) = (u.map (fun r => r.val m)).filterMap id := by
    intro u
    rw [List.filterMap_map]
    rfl
  unfold globalMeanOrDefault
  rw [key t, key t', h]

theorem step_map_rowEra (knn : ℕ → List (List (Option ℚ)) → List ℚ)
    (e : Era) (cols : List Metric) (snap t : List SeasonRow) (m : Metric) :
    (imputeEraMetricStep knn e cols snap t m).map rowEra = t.map rowEra := by
  unfold imputeEraMetricStep
  split
  · split
    · apply writeCol_map_rowEra
    · apply setEraMetric_map_rowEra
  · rfl

theorem step_map_val_ne (knn : ℕ → List (List (Option ℚ)) → List ℚ)
    (e : Era) (cols : List Metric) (snap t : List SeasonRow) (m m' : Metric)
    (h : m' ≠ m) :
    (imputeEraMetricStep knn e cols snap t m).map (fun r => r.val m')
      = t.map (fun r => r.val m') := by
  unfold imputeEraMetricStep
  split
  · split
    · apply writeCol_map_val_ne _ _ _ _ h
    · apply setEraMetric_map_val_ne _ _ _ _ _ h
  · rfl

theorem foldSteps_map_rowEra (knn : ℕ → List (List (Option ℚ)) → List ℚ)
    (e : Era) (cols : List Metric) (snap : List SeasonRow) :
    ∀ (l : List Metric) (t : List SeasonRow),
      (l.foldl (imputeEraMetricStep knn e cols snap) t).map rowEra
        = t.map rowEra := by
  intro l
  induction l with
  | nil => intro t; rfl
  | cons m ms ih =>
    intro t
    rw [List.foldl_cons, ih, step_map_rowEra]

theorem foldSteps_map_val_notMem (knn : ℕ → List (List (Option ℚ)) → List ℚ)
    (e : Era) (cols : List Metric) (snap : List SeasonRow) (m' : Metric) :
    ∀ (l : List Metric), m' ∉ l → ∀ t : List SeasonRow,
      (l.foldl (imputeEraMetricStep knn e cols snap) t).map (fun r => r.val m')
        = t.map (fun r => r.val m') := by
  intro l
  induction l with
  | nil => intro _ t; rfl
  | cons m ms ih =>
    intro hm t
    rw [List.foldl_cons, ih (fun hc => hm (List.mem_cons_of_mem _ hc)),
      step_map_val_ne knn e cols snap t m m'
        (fun hc => hm (hc ▸ List.mem_cons_self _ _))]

/-! ## Claim C5: dispatch of the first imputation pass -/

/-- Claim C5: within one era iteration of the first pass, for a metric
with at least one missing value in the era snapshot: if the era has
more than one record, the era's metric column is overwritten with the
KNN-imputed column computed with `n_neighbors = min(5, era record
count)` over the feature+target slice; if the era has exactly one
record, the value is the global all-table mean of the metric, falling
back to the fixed default (20.0 for MP, 0.0 otherwise) when the metric
is missing everywhere. -/
theorem c5_theorem (knn : ℕ → List (List (Option ℚ)) → List ℚ)
    (cols : List Metric) (t : List SeasonRow) (e : Era) (m : Metric)
    (hm : m ∈ cols) (hnd : cols.Nodup)
    (hmiss : (eraRows t e).any (fun r => (r.val m).isNone) = true) :
    (1 < (eraRows t e).length →
       (knn (min 5 (eraRows t e).length) (knnMatrix cols (eraRows t e) m)).length
           = (eraRows t e).length →
       eraColumn (imputeEra knn cols t e) e m
         = (knn (min 5 (eraRows t e).length) (knnMatrix cols (eraRows t e) m)).map some)
    ∧ ((eraRows t e).length = 1 →
       eraColumn (imputeEra knn cols t e) e m
         = [some (globalMeanOrDefault t m)]) := by
  obtain ⟨l₁, l₂, rfl⟩ := List.append_of_mem hm
  have hnd3 := List.nodup_append.1 hnd
  have hnotm1 : m ∉ l₁ := fun hc => hnd3.2.2 hc (List.mem_cons_self _ _)
  have hnotm2 : m ∉ l₂ := (List.nodup_cons.1 hnd3.2.1).1
  have hsplit : imputeEra knn (l₁ ++ m :: l₂) t e
      = l₂.foldl (imputeEraMetricStep knn e (l₁ ++ m :: l₂) (eraRows t e))
          (imputeEraMetricStep knn e (l₁ ++ m :: l₂) (eraRows t e)
            (l₁.foldl (imputeEraMetricStep knn e (l₁ ++ m :: l₂) (eraRows t e)) t) m) := by
    unfold imputeEra
    rw [List.foldl_append, List.foldl_cons]
  have ht1_rowEra :
      (l₁.foldl (imputeEraMetricStep knn e (l₁ ++ m :: l₂) (eraRows t e)) t).map rowEra
        = t.map rowEra :=
    foldSteps_map_rowEra knn e (l₁ ++ m :: l₂) (eraRows t e) l₁ t
  have ht1_valm :
      (l₁.foldl (imputeEraMetricStep knn e (l₁ ++ m :: l₂) (eraRows t e)) t).map
          (fun r => r.val m)
        = t.map (fun r => r.val m) :=
    foldSteps_map_val_notMem knn e (l₁ ++ m :: l₂) (eraRows t e) m l₁ hnotm1 t
  have ht1_col :
      eraColumn (l₁.foldl (imputeEraMetricStep knn e (l₁ ++ m :: l₂) (eraRows t e)) t) e m
        = eraColumn t e m :=
    eraColumn_congr e m _ _ ht1_rowEra ht1_valm
  have ht1_len :
      (eraRows (l₁.foldl (imputeEraMetricStep knn e (l₁ ++ m :: l₂) (eraRows t e)) t) e).length
        = (eraRows t e).length := by
    have hl := congrArg List.length ht1_col
    simpa [eraColumn, List.length_map] using hl
  constructor
  · intro h1 hlen
    have hstep : imputeEraMetricStep knn e (l₁ ++ m :: l₂) (eraRows t e)
          (l₁.foldl (imputeEraMetricStep knn e (l₁ ++ m :: l₂) (eraRows t e)) t) m
        = writeCol (l₁.foldl (imputeEraMetricStep knn e (l₁ ++ m :: l₂) (eraRows t e)) t)
            e m (knn (min 5 (eraRows t e).length)
              (knnMatrix (l₁ ++ m :: l₂) (eraRows t e) m)) := by
      unfold imputeEraMetricStep
      rw [if_pos hmiss, if_pos h1]
    rw [hsplit, hstep]
    have hwc := writeCol_eraColumn e m
      (l₁.foldl (imputeEraMetricStep knn e (l₁ ++ m :: l₂) (eraRows t e)) t)
      (knn (min 5 (eraRows t e).length) (knnMatrix (l₁ ++ m :: l₂) (eraRows t e) m))
      (by rw [hlen, ht1_len])
    have hfin := eraColumn_congr e m
      (l₂.foldl (imputeEraMetricStep knn e (l₁ ++ m :: l₂) (eraRows t e))
        (writeCol (l₁.foldl (imputeEraMetricStep knn e (l₁ ++ m :: l₂) (eraRows t e)) t)
          e m (knn (min 5 (eraRows t e).length)
            (knnMatrix (l₁ ++ m :: l₂) (eraRows t e) m))))
      (writeCol (l₁.foldl (imputeEraMetricStep knn e (l₁ ++ m :: l₂) (eraRows t e)) t)
        e m (knn (min 5 (eraRows t e).length)
          (knnMatrix (l₁ ++ m :: l₂) (eraRows t e) m)))
      (foldSteps_map_rowEra knn e (l₁ ++ m :: l₂) (eraRows t e) l₂ _)
      (foldSteps_map_val_notMem knn e (l₁ ++ m :: l₂) (eraRows t e) m l₂ hnotm2 _)
    rw [hfin, hwc]
  · intro h1
    have hstep : imputeEraMetricStep knn e (l₁ ++ m :: l₂) (eraRows t e)
          (l₁.foldl (imputeEraMetricStep knn e (l₁ ++ m :: l₂) (eraRows t e)) t) m
        = setEraMetric (l₁.foldl (imputeEraMetricStep knn e (l₁ ++ m :: l₂) (eraRows t e)) t)
            e m (globalMeanOrDefault
              (l₁.foldl (imputeEraMetricStep knn e (l₁ ++ m :: l₂) (eraRows t e)) t) m) := by
      unfold imputeEraMetricStep
      rw [if_pos hmiss, if_neg (by omega : ¬ 1 < (eraRows t e).length)]
    rw [hsplit, hstep]
    have hmean : globalMeanOrDefault
          (l₁.foldl (imputeEraMetricStep knn e (l₁ ++ m :: l₂) (eraRows t e)) t) m
        = globalMeanOrDefault t m :=
      globalMeanOrDefault_congr _ _ m ht1_valm
    have hsc := setEraMetric_eraColumn e m
      (globalMeanOrDefault
        (l₁.foldl (imputeEraMetricStep knn e (l₁ ++ m :: l₂) (eraRows t e)) t) m)
      (l₁.foldl (imputeEraMetricStep knn e (l₁ ++ m :: l₂) (eraRows t e)) t)
    have hfin := eraColumn_congr e m
      (l₂.foldl (imputeEraMetricStep knn e (l₁ ++ m :: l₂) (eraRows t e))
        (setEraMetric (l₁.foldl (imputeEraMetricStep knn e (l₁ ++ m :: l₂) (eraRows t e)) t)
          e m (globalMeanOrDefault
            (l₁.foldl (imputeEraMetricStep knn e (l₁ ++ m :: l₂) (eraRows t e)) t) m)))
      (setEraMetric (l₁.foldl (imputeEraMetricStep knn e (l₁ ++ m :: l₂) (eraRows t e)) t)
        e m (globalMeanOrDefault
          (l₁.foldl (imputeEraMetricStep knn e (l₁ ++ m :: l₂) (eraRows t e)) t) m))
      (foldSteps_map_rowEra knn e (l₁ ++ m :: l₂) (eraRows t e) l₂ _)
      (foldSteps_map_val_notMem knn e (l₁ ++ m :: l₂) (eraRows t e) m l₂ hnotm2 _)
    rw [hfin, hsc, ht1_len, h1, hmean]
    rfl

/-- A concrete KNN oracle for the C5 witness. -/
def exKnn : ℕ → List (List (Option ℚ)) → List ℚ := fun _ _ => [7, 8]

/-- A two-row Modern-era table with the PER metric entirely missing. -/
def exT5 : List SeasonRow :=
  [⟨"A", 1985, 50, fun _ => none⟩, ⟨"B", 1990, 60, fun _ => none⟩]

/-- Witness for C5 at a concrete two-record era. -/
theorem c5_witness :
    (Metric.per ∈ ([Metric.per] : List Metric))
    ∧ ((eraRows exT5 Era.modern).any (fun r => (r.val Metric.per).isNone) = true)
    ∧ 1 < (eraRows exT5 Era.modern).length
    ∧ eraColumn (imputeEra exKnn [Metric.per] exT5 Era.modern) Era.modern Metric.per
        = (exKnn (min 5 (eraRows exT5 Era.modern).length)
            (knnMatrix [Metric.per] (eraRows exT5 Era.modern) Metric.per)).map some :=
  ⟨by decide, by decide, by decide,
   (c5_theorem exKnn [Metric.per] exT5 Era.modern Metric.per (by decide) (by decide)
      (by decide)).1 (by decide) (by decide)⟩

/-! ## Claim C8: idempotence on fully-imputed input -/

theorem imputeEraMetricStep_id (knn : ℕ → List (List (Option ℚ)) → List ℚ)
    (e : Era) (cols : List Metric) (snap t : List SeasonRow) (m : Metric)
    (h : snap.any (fun r => (r.val m).isNone) = false) :
    imputeEraMetricStep knn e cols snap t m = t := by
  unfold imputeEraMetricStep
  rw [if_neg (by simp [h])]

theorem imputeEra_id (knn : ℕ → List (List (Option ℚ)) → List ℚ)
    (cols : List Metric) (t : List SeasonRow) (e : Era)
    (hfull : ∀ r ∈ t, ∀ m ∈ cols, (r.val m).isSome = true) :
    imputeEra knn cols t e = t := by
  unfold imputeEra
  have hsnap : ∀ m ∈ cols, (eraRows t e).any (fun r => (r.val m).isNone) = false := by
    intro m hm
    rw [List.any_eq_false]
    intro r hr
    rcases Option.isSome_iff_exists.1
      (hfull r (List.mem_of_mem_filter hr) m hm) with ⟨v, hv⟩
    simp [hv]
  have hgen : ∀ l : List Metric, (∀ m' ∈ l, m' ∈ cols) →
      l.foldl (imputeEraMetricStep knn e cols (eraRows t e)) t = t := by
    intro l
    induction l with
    | nil => intro _; rfl
    | cons m ms ih =>
      intro hsub
      rw [List.foldl_cons,
        imputeEraMetricStep_id knn e cols (eraRows t e) t m
          (hsnap m (hsub m (List.mem_cons_self _ _)))]
      exact ih (fun m' hm' => hsub m' (List.mem_cons_of_mem _ hm'))
  exact hgen cols (fun _ h => h)

theorem imputePass1_id (knn : ℕ → List (List (Option ℚ)) → List ℚ)
    (cols : List Metric) (t : List SeasonRow)
    (hfull : ∀ r ∈ t, ∀ m ∈ cols, (r.val m).isSome = true) :
    imputePass1 knn cols t = t := by
  unfold imputePass1
  have hgen : ∀ l : List Era, l.foldl (fun acc e => imputeEra knn cols acc e) t = t := by
    intro l
    induction l with
    | nil => rfl
    | cons e es ih => rw [List.foldl_cons, imputeEra_id knn cols t e hfull, ih]
  exact hgen _

theorem setEraMetric_id_of_empty (t : List SeasonRow) (e : Era) (m : Metric) (q : ℚ)
    (h : eraRows t e = []) : setEraMetric t e m q = t := by
  unfold setEraMetric
  have hall : ∀ r ∈ t, (if rowEra r = some e then setVal r m q else r) = r := by
    intro r hr
    rw [if_neg]
    intro hc
    have hmem : r ∈ eraRows t e := List.mem_filter.2 ⟨hr, by simp [hc]⟩
    rw [h] at hmem
    simp at hmem
  calc t.map (fun r => if rowEra r = some e then setVal r m q else r)
      = t.map id := List.map_congr_left hall
    _ = t := List.map_id t

theorem backfillStep_id (t : List SeasonRow) (m : Metric) (e : Era)
    (hfull : ∀ r ∈ t, (r.val m).isSome = true) :
    backfillStep t m e = t := by
  unfold backfillStep
  by_cases hge : eraRows t e = []
  · have hcond : (eraRows t e).all (fun r => (r.val m).isNone) = true := by
      rw [hge]
      rfl
    rw [if_pos hcond]
    have hid : ∀ q, setEraMetric t e m q = t :=
      fun q => setEraMetric_id_of_empty t e m q hge
    cases hf : searchEras.findSome? (fun pe => eraMeanOpt t pe m) with
    | some avg =>
      simp only [hf]
      rw [hid avg, hid (defaultVal m)]
    | none =>
      simp only [hf]
      rw [hid (defaultVal m)]
  · have hcond : (eraRows t e).all (fun r => (r.val m).isNone) = false := by
      rw [List.all_eq_false]
      cases hge2 : eraRows t e with
      | nil => exact absurd hge2 hge
      | cons r0 rest =>
        have hr0era : r0 ∈ eraRows t e := hge2.symm ▸ List.mem_cons_self r0 rest
        rcases Option.isSome_iff_exists.1
          (hfull r0 (List.mem_of_mem_filter hr0era)) with ⟨v, hv⟩
        exact ⟨r0, List.mem_cons_self r0 rest, by simp [hv]⟩
    rw [if_neg (by simp [hcond])]

theorem crossEraBackfill_id (cols : List Metric) (t : List SeasonRow)
    (hfull : ∀ r ∈ t, ∀ m ∈ cols, (r.val m).isSome = true) :
    crossEraBackfill cols t = t := by
  unfold crossEraBackfill
  have herafold : ∀ m : Metric, m ∈ cols → ∀ l : List Era,
      l.foldl (fun acc2 e => backfillStep acc2 m e) t = t := by
    intro m hm l
    induction l with
    | nil => rfl
    | cons e es ih =>
      rw [List.foldl_cons, backfillStep_id t m e (fun r hr => hfull r hr m hm), ih]
  have hgen : ∀ l : List Metric, (∀ m ∈ l, m ∈ cols) →
      l.foldl (fun acc m => allErasChron.foldl (fun acc2 e => backfillStep acc2 m e) acc) t
        = t := by
    intro l
    induction l with
    | nil => intro _; rfl
    | cons m ms ih =>
      intro hsub
      rw [List.foldl_cons, herafold m (hsub m (List.mem_cons_self _ _)) allErasChron]
      exact ih (fun m' hm' => hsub m' (List.mem_cons_of_mem _ hm'))
  exact hgen cols (fun _ h => h)

/-- Claim C8: on a table with no missing values among the imputable
metrics, `impute_missing_values` changes nothing except the final
rounding to 3 decimals: the output is the rounded input, for every KNN
oracle. -/
theorem c8_theorem (knn : ℕ → List (List (Option ℚ)) → List ℚ)
    (cols : List Metric) (t : List SeasonRow)
    (hfull : ∀ r ∈ t, ∀ m ∈ cols, (r.val m).isSome = true) :
    impute_missing_values knn cols t = t.map roundRow := by
  unfold impute_missing_values
  rw [imputePass1_id knn cols t hfull, crossEraBackfill_id cols t hfull]

/-- A fully-populated one-row table for the C8 witness. -/
def exT8 : List SeasonRow := [⟨"A", 1985, 50, fun _ => some 10⟩]

/-- Witness for C8 at a concrete fully-imputed table. -/
theorem c8_witness :
    (∀ r ∈ exT8, ∀ m ∈ ([Metric.mp, Metric.per] : List Metric), (r.val m).isSome = true)
    ∧ impute_missing_values exKnn [Metric.mp, Metric.per] exT8 = exT8.map roundRow :=
  ⟨by decide, c8_theorem exKnn [Metric.mp, Metric.per] exT8 (by decide)⟩

/-! ## Claim C10: rows outside every era are left untouched -/

theorem setEraMetric_get_none (t : List SeasonRow) (e : Era) (m : Metric) (q : ℚ)
    (i : ℕ) (r : SeasonRow) (ht : t[i]? = some r) (hre : rowEra r = none) :
    (setEraMetric t e m q)[i]? = some r := by
  unfold setEraMetric
  rw [List.getElem?_map, ht]
  simp [hre]

theorem writeCol_get_none (e : Era) (m : Metric) :
    ∀ (t : List SeasonRow) (col : List ℚ) (i : ℕ) (r : SeasonRow),
      t[i]? = some r → rowEra r = none → (writeCol t e m col)[i]? = some r := by
  intro t
  induction t with
  | nil => intro col i r ht _; simp at ht
  | cons a rs ih =>
    intro col i r ht hre
    by_cases he : rowEra a = some e
    · simp only [writeCol]
      rw [if_pos he]
      cases col with
      | nil =>
        cases i with
        | zero => simpa using ht
        | succ j =>
          rw [List.getElem?_cons_succ]
          exact ih [] j r (by simpa using ht) hre
      | cons v vs =>
        cases i with
        | zero =>
          have har : a = r := by simpa using ht
          rw [← har] at hre
          rw [he] at hre
          simp at hre
        | succ j =>
          rw [List.getElem?_cons_succ]
          exact ih vs j r (by simpa using ht) hre
    · simp only [writeCol]
      rw [if_neg he]
      cases i with
      | zero => simpa using ht
      | succ j =>
        rw [List.getElem?_cons_succ]
        exact ih col j r (by simpa using ht) hre

theorem step_get_none (knn : ℕ → List (List (Option ℚ)) → List ℚ)
    (e : Era) (cols : List Metric) (snap t : List SeasonRow) (m : Metric)
    (i : ℕ) (r : SeasonRow) (ht : t[i]? = some r) (hre : rowEra r = none) :
    (imputeEraMetricStep knn e cols snap t m)[i]? = some r := by
  unfold imputeEraMetricStep
  split
  · split
    · exact writeCol_get_none e m t _ i r ht hre
    · exact setEraMetric_get_none t e m _ i r ht hre
  · exact ht

theorem foldSteps_get_none (knn : ℕ → List (List (Option ℚ)) → List ℚ)
    (e : Era) (cols : List Metric) (snap : List SeasonRow) :
    ∀ (l : List Metric) (t : List SeasonRow) (i : ℕ) (r : SeasonRow),
      t[i]? = some r → rowEra r = none →
      (l.foldl (imputeEraMetricStep knn e cols snap) t)[i]? = some r := by
  intro l
  induction l with
  | nil => intro t i r ht _; exact ht
  | cons m ms ih =>
    intro t i r ht hre
    rw [List.foldl_cons]
    exact ih _ i r (step_get_none knn e cols snap t m i r ht hre) hre

theorem imputePass1_get_none (knn : ℕ → List (List (Option ℚ)) → List ℚ)
    (cols : List Metric) :
    ∀ (l : List Era) (t : List SeasonRow) (i : ℕ) (r : SeasonRow),
      t[i]? = some r → rowEra r = none →
      (l.foldl (fun acc e => imputeEra knn cols acc e) t)[i]? = some r := by
  intro l
  induction l with
  | nil => intro t i r ht _; exact ht
  | cons e es ih =>
    intro t i r ht hre
    rw [List.foldl_cons]
    exact ih _ i r (foldSteps_get_none knn e cols (eraRows t e) cols t i r ht hre) hre

theorem imputePass1_get_none_wrap (knn : ℕ → List (List (Option ℚ)) → List ℚ)
    (cols : List Metric) (t : List SeasonRow) (i : ℕ) (r : SeasonRow)
    (ht : t[i]? = some r) (hre : rowEra r = none) :
    (imputePass1 knn cols t)[i]? = some r := by
  unfold imputePass1
  exact imputePass1_get_none knn cols (erasOrder t) t i r ht hre

theorem backfillStep_get_none (t : List SeasonRow) (m : Metric) (e : Era)
    (i : ℕ) (r : SeasonRow) (ht : t[i]? = some r) (hre : rowEra r = none) :
    (backfillStep t m e)[i]? = some r := by
  unfold backfillStep
  split
  · cases hf : searchEras.findSome? (fun pe => eraMeanOpt t pe m) with
    | some avg =>
      simp only [hf]
      exact setEraMetric_get_none _ e m _ i r
        (setEraMetric_get_none t e m avg i r ht hre) hre
    | none =>
      simp only [hf]
      exact setEraMetric_get_none t e m _ i r ht hre
  · exact ht

theorem crossEraBackfill_get_none (cols : List Metric) (t : List SeasonRow)
    (i : ℕ) (r : SeasonRow) (ht : t[i]? = some r) (hre : rowEra r = none) :
    (crossEraBackfill cols t)[i]? = some r := by
  unfold crossEraBackfill
  have heras : ∀ (m : Metric) (l : List Era) (u : List SeasonRow),
      u[i]? = some r →
      (l.foldl (fun acc2 e => backfillStep acc2 m e) u)[i]? = some r := by
    intro m l
    induction l with
    | nil => intro u hu; exact hu
    | cons e es ih =>
      intro u hu
      rw [List.foldl_cons]
      exact ih _ (backfillStep_get_none u m e i r hu hre)
  have hgen : ∀ (l : List Metric) (u : List SeasonRow),
      u[i]? = some r →
      (l.foldl (fun acc m => allErasChron.foldl
        (fun acc2 e => backfillStep acc2 m e) acc) u)[i]? = some r := by
    intro l
    induction l with
    | nil => intro u hu; exact hu
    | cons m ms ih =>
      intro u hu
      rw [List.foldl_cons]
      exact ih _ (heras m allErasChron u hu)
  exact hgen cols t ht

/-- Claim C10: a season row whose starting year is at most 1940 or
greater than 2025 is assigned no era and is skipped by both imputation
passes: its row survives unchanged up to the final rounding, and in
particular all its missing metric values remain missing. -/
theorem c10_theorem (knn : ℕ → List (List (Option ℚ)) → List ℚ)
    (cols : List Metric) (t : List SeasonRow) (i : ℕ) (r : SeasonRow)
    (hyear : r.year ≤ 1940 ∨ 2025 < r.year) (ht : t[i]? = some r) :
    rowEra r = none
    ∧ (impute_missing_values knn cols t)[i]? = some (roundRow r)
    ∧ ∀ m : Metric, r.val m = none → (roundRow r).val m = none := by
  have hre : rowEra r = none := by
    unfold rowEra yearToEra
    rcases hyear with h | h
    · rw [if_neg (by omega), if_neg (by omega), if_neg (by omega), if_neg (by omega)]
    · rw [if_neg (by omega), if_neg (by omega), if_neg (by omega), if_neg (by omega)]
  refine ⟨hre, ?_, ?_⟩
  · unfold impute_missing_values
    rw [List.getElem?_map,
      crossEraBackfill_get_none cols _ i r
        (imputePass1_get_none_wrap knn cols t i r ht hre) hre]
    rfl
  · intro m hm
    simp [roundRow, hm]

/-- A one-row table whose season year lies outside every era bucket. -/
def exT10 : List SeasonRow := [⟨"Old", 1930, 40, fun _ => none⟩]

/-- Witness for C10 at a 1930 season row. -/
theorem c10_witness :
    ((1930 : ℤ) ≤ 1940 ∨ (2025 : ℤ) < 1930)
    ∧ exT10[0]? = some (⟨"Old", 1930, 40, fun _ => none⟩ : SeasonRow)
    ∧ (impute_missing_values exKnn [Metric.per] exT10)[0]?
        = some (roundRow (⟨"Old", 1930, 40, fun _ => none⟩ : SeasonRow)) :=
  ⟨Or.inl (by decide), rfl,
   (c10_theorem exKnn [Metric.per] exT10 0 ⟨"Old", 1930, 40, fun _ => none⟩
      (Or.inl (by decide)) rfl).2.1⟩

/-! ## Claim C2: cross-era backfill -/

/-- A table whose Modern era is entirely missing PER while both
Early-modern (mean 10) and Contemporary (mean 30) have it. -/
def exB : List SeasonRow :=
  [⟨"E", 1965, 30, fun m => if m = Metric.per then some 10 else none⟩,
   ⟨"M", 1985, 40, fun _ => none⟩,
   ⟨"C", 2005, 50, fun m => if m = Metric.per then some 30 else none⟩]

/-- Counterexample for C2 as stated: in `exB` the Modern era is
entirely missing PER; the claim says the backfill fills it with the
mean of the first later era with the metric (Contemporary, 30.0); the
code's own search list would pick Early-modern's 10.0 (the list is
fixed, not forward-from-the-deficient-era); and the actual result is
the fixed default 0.0 — the re-check at line 92 reads the stale
pre-fill snapshot of `era_df`, so the default overwrites the
backfilled mean unconditionally. -/
theorem c2_counterexample :
    eraColumn exB Era.modern Metric.per = [none]
    ∧ eraMeanOpt exB Era.earlyModern Metric.per = some 10
    ∧ eraMeanOpt exB Era.contemporary Metric.per = some 30
    ∧ (crossEraBackfill [Metric.per] exB).map (fun r => r.val Metric.per)
        = [some 10, some 0, some 30] := by
  refine ⟨by decide, ?_, ?_, by decide⟩
  · have h : eraMeanOpt exB Era.earlyModern Metric.per = some (listMean [10]) := rfl
    rw [h]
    norm_num [listMean]
  · have h : eraMeanOpt exB Era.contemporary Metric.per = some (listMean [30]) := rfl
    rw [h]
    norm_num [listMean]

/-! ## Claims about the Career Aggregator -/

/-- The two-season zero-minutes table of the C1 example:
`(minutes=0, PER=10)` and `(minutes=0, PER=20)` for one player. -/
def exC1 : CTable :=
  { present := fun c => decide (c = CCol.mp) || decide (c = CCol.per)
  , rows :=
      [⟨"Z", fun c => if c = CCol.mp then some 0 else if c = CCol.per then some 10 else none⟩,
       ⟨"Z", fun c => if c = CCol.mp then some 0 else if c = CCol.per then some 20 else none⟩] }

/-- Counterexample for C1 as stated: the HOF version of the Career
Aggregator has no zero-weight fallback — on the two-season zero-minutes
example its weighted average raises `ZeroDivisionError` and the run
aborts instead of producing 15.0. -/
theorem c1_counterexample :
    hofWeightedVal exC1 CCol.per "Z"
        = Except.error "ZeroDivisionError: Weights sum to zero, can't be normalized"
    ∧ exceptOk (hofCareerStats exC1) = false := by
  have h1 : hofWeightedVal exC1 CCol.per "Z"
      = npAverage [some 10, some 20] [some 0, some 0] := rfl
  have h2 : npAverage [some (10 : ℚ), some 20] [some (0 : ℚ), some 0]
      = Except.error "ZeroDivisionError: Weights sum to zero, can't be normalized" := by
    have hw : List.filterMap id [some (0 : ℚ), some 0] = [0, 0] := rfl
    simp only [npAverage]
    rw [if_neg (by decide), if_pos (by rw [hw]; simp)]
  have h3 : exceptOk (hofCareerStats exC1) = false := by
    unfold hofCareerStats
    rw [show weightedByMP.filter (fun m => exC1.present m) = [CCol.per] from rfl]
    rw [show uniquePlayers exC1 = ["Z"] from rfl]
    simp [List.mapM.loop, h1.trans h2, exceptOk, Bind.bind, Except.bind]
  exact ⟨h1.trans h2, h3⟩

/-- Claim C1 (amended): in the NBA version of the Career Aggregator,
for a player whose season minutes are all zero and whose metric is not
entirely missing, `safe_weighted_average` falls back to the unweighted
arithmetic mean, and the player's career row carries that (rounded)
mean; the HOF version instead raises `ZeroDivisionError` on such
input (see the counterexample). -/
theorem c1_theorem (t : CTable) (p : String) (m : CCol)
    (hm : m ∈ weightedByMP) (hmp : t.present CCol.mp = true) (hpm : t.present m = true)
    (hz : (colVals (groupRows t p) CCol.mp).all (fun o => o = some 0) = true)
    (hnn : (colVals (groupRows t p) m).all Option.isNone = false)
    (hp : p ∈ uniquePlayers t) :
    safe_weighted_average t m (groupRows t p) = pandasMean (colVals (groupRows t p) m)
    ∧ ∃ r ∈ (nbaCareerStats t).rows, r.player = p
        ∧ r.val m = (pandasMean (colVals (groupRows t p) m)).map round3 := by
  have hfacts : ∀ x ∈ weightedByMP,
      x ≠ CCol.hof ∧ memB x sumMetricsC = false ∧ memB x weightedByMP = true := by decide
  have hmf := hfacts m hm
  have hswa : safe_weighted_average t m (groupRows t p)
      = pandasMean (colVals (groupRows t p) m) := by
    unfold safe_weighted_average
    rw [if_neg (by simp [hnn]), if_neg (by simp [hmp]), if_pos (Or.inl hz)]
  refine ⟨hswa, ?_⟩
  have hout : careerOutPresent t m = true := by
    unfold careerOutPresent
    simp [hmf.1, hmf.2.2, hpm]
  have hval : nbaCareerVal t p m = (pandasMean (colVals (groupRows t p) m)).map round3 := by
    unfold nbaCareerVal
    rw [if_pos hout, if_neg hmf.1, if_neg (by simp [hmf.2.1]), if_pos hmf.2.2, hswa]
  exact ⟨_, List.mem_map_of_mem _ hp, rfl, hval⟩

/-- Witness for the amended C1 at the two-season zero-minutes example:
the unweighted mean is 15.0. -/
theorem c1_witness :
    (CCol.per ∈ weightedByMP)
    ∧ exC1.present CCol.mp = true
    ∧ (colVals (groupRows exC1 "Z") CCol.mp).all (fun o => o = some 0) = true
    ∧ (pandasMean (colVals (groupRows exC1 "Z") CCol.per)).map round3 = some 15
    ∧ safe_weighted_average exC1 CCol.per (groupRows exC1 "Z")
        = pandasMean (colVals (groupRows exC1 "Z") CCol.per) :=
  ⟨by decide, by decide, by decide,
   by
     have h : (pandasMean (colVals (groupRows exC1 "Z") CCol.per)).map round3
         = some (round3 (listMean [10, 20])) := rfl
     rw [h]
     norm_num [listMean, round3, roundHalfEven],
   (c1_theorem exC1 "Z" CCol.per (by decide) (by decide) (by decide) (by decide)
      (by decide) (by decide)).1⟩

/-- A table with the PER column but no MP column. -/
def exC9 : CTable :=
  { present := fun c => decide (c = CCol.per)
  , rows := [⟨"Z", fun c => if c = CCol.per then some 10 else none⟩,
             ⟨"Z", fun c => if c = CCol.per then some 20 else none⟩] }

/-- Counterexample for C9 as stated: when the minutes column is absent
but a weighted rate metric is present, the NBA aggregator does not omit
the metric — it keeps it with the unweighted mean (the `KeyError` is
caught) — and the HOF aggregator aborts with a `KeyError` instead of
continuing. -/
theorem c9_counterexample :
    exC9.present CCol.mp = false
    ∧ (nbaCareerStats exC9).present CCol.per = true
    ∧ (nbaCareerStats exC9).rows.map (fun r => r.val CCol.per) = [some 15]
    ∧ exceptOk (hofCareerStats exC9) = false :=
  ⟨by decide, by decide,
   by
     have h : (nbaCareerStats exC9).rows.map (fun r => r.val CCol.per)
         = [some (round3 (listMean [10, 20]))] := rfl
     rw [h]
     norm_num [listMean, round3, roundHalfEven],
   by rfl⟩

/-- Claim C9 (amended): in the NBA aggregator, any absent summed stat,
weighted rate metric or award column is omitted from the career output
schema, and the aggregator always completes with exactly one career row
per distinct player; a missing minutes column, however, does not omit
the weighted metrics (they fall back to unweighted means), and the HOF
version aborts in that case (see the counterexample). -/
theorem c9_theorem (t : CTable) (c : CCol)
    (hc : c ∈ sumMetricsC ++ weightedByMP ++ awardColumnsC)
    (habs : t.present c = false) :
    (nbaCareerStats t).present c = false
    ∧ (nbaCareerStats t).rows.map (fun r => r.player) = uniquePlayers t := by
  constructor
  · show careerOutPresent t c = false
    have hnothof : c ≠ CCol.hof := by
      intro hcc
      subst hcc
      revert hc
      decide
    unfold careerOutPresent
    simp [hnothof, habs]
  · show ((uniquePlayers t).map
        (fun p => ({ player := p, val := nbaCareerVal t p } : CRow))).map
          (fun r => r.player) = uniquePlayers t
    rw [List.map_map]
    exact List.map_id _

/-- Witness for the amended C9: the absent WS column is omitted from
the output schema of the NBA aggregator. -/
theorem c9_witness :
    (CCol.ws ∈ sumMetricsC ++ weightedByMP ++ awardColumnsC)
    ∧ exC9.present CCol.ws = false
    ∧ (nbaCareerStats exC9).present CCol.ws = false :=
  ⟨by decide, by decide, (c9_theorem exC9 CCol.ws (by decide) (by decide)).1⟩

/-- Claim C2 (amended): for a metric entirely missing within an era at
the time its backfill iteration runs, the iteration writes the mean of
the first era in the fixed search list Early-modern, Modern,
Contemporary whose values are not entirely missing, but the subsequent
all-missing re-check reads the stale pre-fill copy of `era_df` and
therefore always overwrites the era with the fixed default (20.0 for
MP, 0.0 otherwise) — so the deficient era always ends at the default,
whether or not any era has the metric; an era not entirely missing is
left unchanged. -/
theorem c2_theorem (t : List SeasonRow) (m : Metric) (e : Era) :
    ((eraRows t e).all (fun r => (r.val m).isNone) = true →
      eraColumn (backfillStep t m e) e m
        = List.replicate (eraRows t e).length (some (defaultVal m)))
    ∧ ((eraRows t e).all (fun r => (r.val m).isNone) = false →
      backfillStep t m e = t) := by
  constructor
  · intro hmiss
    unfold backfillStep
    rw [if_pos hmiss]
    cases hf : searchEras.findSome? (fun pe => eraMeanOpt t pe m) with
    | some avg =>
      simp only [hf]
      have hlen : (eraRows (setEraMetric t e m avg) e).length = (eraRows t e).length := by
        have h1 := congrArg List.length (setEraMetric_eraColumn e m avg t)
        simpa [eraColumn, List.length_map, List.length_replicate] using h1
      rw [setEraMetric_eraColumn, hlen]
    | none =>
      simp only [hf]
      rw [setEraMetric_eraColumn]
  · intro hmiss
    unfold backfillStep
    rw [if_neg (by simp [hmiss])]

/-- Witness for the amended C2 at `exB`: the Modern era, entirely
missing PER, ends at the default 0.0. -/
theorem c2_witness :
    ((eraRows exB Era.modern).all (fun r => (r.val Metric.per).isNone) = true)
    ∧ eraColumn (backfillStep exB Metric.per Era.modern) Era.modern Metric.per
        = List.replicate (eraRows exB Era.modern).length (some (defaultVal Metric.per)) :=
  ⟨by decide, (c2_theorem exB Metric.per Era.modern).1 (by decide)⟩
